import Mathlib

/-!
Shallow embedding of the SpatioTemporal pipeline
(src/SpatioTemporal/models.py and src/SpatioTemporal/spatio_temporal.py).

Numeric values are modelled as exact rationals.  The transcendental
functions used by the source (math.exp, math.sqrt and sklearn's
haversine_distances, including the radians conversion) are passed in as
abstract parameters (fexp, fsqrt, fhav): no claim depends on their
values, only on how the pipeline wires them together.  The external
clustering capability (sklearn-style .fit().labels_) is likewise a
parameter mapping a point list to a label list.  Python runtime faults
(ZeroDivisionError on dividing by 0, KeyError on a failed dict lookup,
ValueError for an invalid significance level) are modelled with Except.
In-place mutation of shared GetisCluster objects by
STHS._calculate_getis_ord is modelled by threading the list-of-lists
store through the computation and reading the returned window reference
lists against the final store, exactly as the Python caller observes
the aliased objects after fit returns.
-/

namespace SpatioTemporal

/-- models.py Point. -/
structure Point where
  x : ℚ
  y : ℚ
deriving DecidableEq, Repr

/-- models.py TPoint (Point + timestamp). -/
structure TPoint where
  x : ℚ
  y : ℚ
  t : ℤ
deriving DecidableEq, Repr

/-- models.py Trajectory: start point, end point and midpoint m. -/
structure Trajectory where
  tps : TPoint
  tpe : TPoint
  m : Point
deriving DecidableEq, Repr

/-- Trajectory.__init__ with m = None: m defaults to the coordinate mean
of the two endpoints. -/
def mkTrajectory (tps tpe : TPoint) : Trajectory :=
  { tps := tps, tpe := tpe, m := ⟨(tpe.x + tps.x) / 2, (tpe.y + tps.y) / 2⟩ }

/-- models.py TPartition: a timeslice [ts, te) with its points. -/
structure TPartition where
  ts : ℤ
  te : ℤ
  tpoints : List TPoint
deriving DecidableEq, Repr

/-- models.py ClusterPoint (TPoint + cluster label c). -/
structure ClusterPoint where
  x : ℚ
  y : ℚ
  t : ℤ
  c : ℤ
deriving DecidableEq, Repr

/-- models.py Cluster.  The constructor computes the centroid m from the
member points, so m is a stored field here as in the source. -/
structure Cluster where
  id : ℤ
  cpoints : List ClusterPoint
  m : Point
  t : ℤ
  c : Option ℤ
deriving DecidableEq, Repr

/-- Centroid computation from Cluster.__init__:
mx, my = sum(cp.x)/len(cpoints), sum(cp.y)/len(cpoints).
(Python raises ZeroDivisionError for an empty member list; the pipeline
only ever builds clusters from at least one point.) -/
def centroid (cps : List ClusterPoint) : Point :=
  ⟨(cps.map (fun p => p.x)).sum / (cps.length : ℚ),
   (cps.map (fun p => p.y)).sum / (cps.length : ℚ)⟩

/-- Cluster.__init__. -/
def mkCluster (id : ℤ) (cps : List ClusterPoint) (t : ℤ) (c : Option ℤ) : Cluster :=
  { id := id, cpoints := cps, m := centroid cps, t := t, c := c }

/-- Hot / Cold spot characterization (the source uses the strings
'Hot' / 'Cold', with None for unclassified). -/
inductive Spot where
  | Hot : Spot
  | Cold : Spot
deriving DecidableEq, Repr

/-- models.py GetisCluster: Cluster (with label c left None by the
super() call) plus the feature x = member count, the Gi* value gi, the
significance flag and the spot characterization. -/
structure GetisCluster where
  id : ℤ
  cpoints : List ClusterPoint
  m : Point
  t : ℤ
  c : Option ℤ
  x : ℚ
  gi : Option ℚ
  significant : Bool
  spot : Option Spot
deriving DecidableEq, Repr

/-- GetisCluster.__init__ : super().__init__(id, cpoints, t) (so c stays
None and m is recomputed from cpoints), then x = len(cpoints),
gi = None, significant = False, spot = None. -/
def mkGetisCluster (id : ℤ) (cps : List ClusterPoint) (t : ℤ) : GetisCluster :=
  { id := id, cpoints := cps, m := centroid cps, t := t, c := none,
    x := (cps.length : ℚ), gi := none, significant := false, spot := none }

/-! ## ST._create_G : time partitioning -/

/-- max(tr.tpe.t for tr in trajs); Python raises ValueError on an empty
sequence, the [] case below is junk never used under the non-emptiness
hypotheses of the theorems. -/
def maxEndT : List Trajectory → ℤ
  | [] => 0
  | tr :: rest => rest.foldl (fun acc r => max acc r.tpe.t) tr.tpe.t

/-- Number of iterations of Python range(0, stop, step) for step > 0,
i.e. max 0 (ceil (stop / step)). -/
def numSlices (stop step : ℤ) : ℕ :=
  (stop.toNat + step.toNat - 1) / step.toNat

/-- ST._create_G: for t in range(0, time_range, interval) emit the
partition [t, t + interval) holding, for every trajectory passing the
inclusive overlap test NOT (tps.t > t2 OR tpe.t < t1), the midpoint
re-stamped with the partition start time t1. -/
def createG (interval : ℤ) (trajs : List Trajectory) : List TPartition :=
  (List.range (numSlices (maxEndT trajs) interval)).map (fun (k : ℕ) =>
    let t1 : ℤ := (k : ℤ) * interval
    let t2 : ℤ := t1 + interval
    { ts := t1, te := t2,
      tpoints := (trajs.filter (fun tr =>
          decide (¬ (tr.tps.t > t2 ∨ tr.tpe.t < t1)))).map (fun tr =>
        { x := tr.m.x, y := tr.m.y, t := t1 }) })

/-! ## ST._g_clustering : per-partition clustering

The external clustering capability (g_clustering(**args).fit(data)
followed by reading .labels_) is a parameter
model : List (ℚ × ℚ) → List ℤ returning one integer label per input
point, -1 meaning noise (the sklearn contract).  Label access
labels_[i] is modelled with getD; the default is never reached when the
capability honours the one-label-per-point contract. -/

/-- Keys of a Python dict in insertion order: first occurrence order. -/
def firstDedup (l : List ℤ) : List ℤ :=
  l.foldl (fun acc x => if x ∈ acc then acc else acc ++ [x]) []

/-- The clusters of one partition: group the non-noise points by label
(dict insertion order = first occurrence of each label), wrapping each
group as a Cluster with the partition start ts as timestamp and ids
continuing the global counter startId. -/
def gPartitionClusters (tsv : ℤ) (data : List (ℚ × ℚ)) (labels : List ℤ)
    (startId : ℤ) : List Cluster :=
  ((firstDedup (labels.filter (fun l => decide (l ≠ -1)))).enum).map (fun kv =>
    let k := kv.2
    let idx := (List.range data.length).filter (fun i =>
      decide (labels.getD i (-1) = k))
    let cps := idx.map (fun i =>
      let p := data.getD i (0, 0)
      ClusterPoint.mk p.1 p.2 tsv k)
    mkCluster (startId + (kv.1 : ℤ)) cps tsv (some k))

/-- ST._g_clustering: per partition, run the capability on the (x, y)
data (skipping empty partitions without invoking it) and group by
label; the cluster id counter increases across the whole call. -/
def gClustering (model : List (ℚ × ℚ) → List ℤ) (G : List TPartition) :
    List (List Cluster) :=
  (G.foldl (fun (acc : List (List Cluster) × ℤ) Gj =>
    let data := Gj.tpoints.map (fun m => (m.x, m.y))
    if data.length = 0 then (acc.1 ++ [[]], acc.2)
    else
      let labels := model data
      let Kj := gPartitionClusters Gj.ts data labels acc.2
      (acc.1 ++ [Kj], acc.2 + (Kj.length : ℤ))) ([], 0)).1

/-! ## STC._v_clustering : window aggregation -/

/-- The flattened union Vj of the clusters of partitions i .. i+w-1. -/
def windowUnion (K : List (List Cluster)) (w i : ℕ) : List Cluster :=
  ((List.range' i w).map (fun j => K.getD j [])).flatten

/-- One window of STC._v_clustering: centroids of Vj as data; on empty
data emit ([], []); otherwise re-cluster and split by the new label,
re-wrapping cluster number i of Vj as Cluster(i, cpoints, t, labels[i]).
The pair is (Rj, Nj): new label different from -1 versus equal to -1. -/
def vWindow (vmodel : List (ℚ × ℚ) → List ℤ) (K : List (List Cluster))
    (w i : ℕ) : List Cluster × List Cluster :=
  let Vj := windowUnion K w i
  let data := Vj.map (fun c => (c.m.x, c.m.y))
  if data.length = 0 then ([], [])
  else
    let labels := vmodel data
    ((Vj.enum.filter (fun p => decide (labels.getD p.1 (-1) ≠ -1))).map
       (fun p => mkCluster (p.1 : ℤ) p.2.cpoints p.2.t (some (labels.getD p.1 (-1)))),
     (Vj.enum.filter (fun p => decide (labels.getD p.1 (-1) = -1))).map
       (fun p => mkCluster (p.1 : ℤ) p.2.cpoints p.2.t (some (labels.getD p.1 (-1)))))

/-- STC._v_clustering: one (Rj, Nj) pair per window start
i in range(len(K) - w + 1). -/
def vClustering (vmodel : List (ℚ × ℚ) → List ℤ) (w : ℕ)
    (K : List (List Cluster)) : List (List Cluster) × List (List Cluster) :=
  ((List.range (K.length + 1 - w)).map (fun i => (vWindow vmodel K w i).1),
   (List.range (K.length + 1 - w)).map (fun i => (vWindow vmodel K w i).2))

/-! ## STHS : hot spot analysis

STHS._create_getis_clusters, STHS._calculate_distance and
STHS._calculate_getis_ord.  Division is the fallible pydiv
(ZeroDivisionError), dict lookups that can miss are fallible (KeyError),
and the invalid significance level raises ValueError, all as Except
errors that abort the computation like the uncaught Python exceptions.
-/

/-- STHS._create_getis_clusters: GCj.append(GetisCluster(cluster.id,
cluster.cpoints, cluster.c)).  The third positional argument of
GetisCluster.__init__ is the timestamp parameter t, and the value
passed is the cluster label c (an Option in this embedding, always
some label for clusters produced by gClustering, whence the getD). -/
def createGetisClusters (K : List (List Cluster)) : List (List GetisCluster) :=
  K.map (fun Kj => Kj.map (fun cl => mkGetisCluster cl.id cl.cpoints (cl.c.getD 0)))

/-- Python float division: ZeroDivisionError on a zero denominator. -/
def pydiv (a b : ℚ) : Except String ℚ :=
  if b = 0 then .error "ZeroDivisionError" else .ok (a / b)

/-- Association-list model of a Python dict: d[k] = v (replace the
binding in place if the key exists, else append it). -/
def dictSet {α : Type} (d : List (ℤ × α)) (k : ℤ) (v : α) : List (ℤ × α) :=
  if d.any (fun kv => decide (kv.1 = k)) then
    d.map (fun kv => if kv.1 = k then (k, v) else kv)
  else d ++ [(k, v)]

/-- Dict lookup (None on a missing key). -/
def dictGet {α : Type} (d : List (ℤ × α)) (k : ℤ) : Option α :=
  (d.find? (fun kv => decide (kv.1 = k))).map (fun kv => kv.2)

/-- The distance table type: cluster id to (cluster id to distance). -/
abbrev DistTable := List (ℤ × List (ℤ × ℚ))

/-- The (partition index, cluster) pairs of GC in iteration order of the
two outer loops of STHS._calculate_distance. -/
def gcPairs (GC : List (List GetisCluster)) : List (ℕ × GetisCluster) :=
  (List.range GC.length).flatMap (fun i => (GC.getD i []).map (fun a => (i, a)))

/-- The clusters whose distance to a cluster of partition i is stored:
those of partitions i .. min(i + w, len GC) - 1.  Python iterates
j over range(i, i + w) and the IndexError raised at GC[j] for
j = len(GC) is caught, ending the loop early at the list length. -/
def distTargets (w : ℕ) (GC : List (List GetisCluster)) (i : ℕ) :
    List GetisCluster :=
  ((List.range' i (min (i + w) GC.length - i)).map (fun j => GC.getD j [])).flatten

/-- STHS._calculate_distance: for every cluster a of partition i store
the inner dict mapping b.id to distance(a, b) for every cluster b of
partitions i .. i + w - 1 (truncated at the end of GC by the caught
IndexError).  fhav stands for the haversine distance of the two
centroids, radians conversion and (lat, lon) ordering included. -/
def calculateDistance (w : ℕ) (fhav : Point → Point → ℚ)
    (GC : List (List GetisCluster)) : DistTable :=
  (gcPairs GC).foldl (fun d ia =>
    dictSet d ia.2.id
      ((distTargets w GC ia.1).foldl (fun inn b =>
        dictSet inn b.id (fhav ia.2.m b.m)) [])) []

/-- Two-level dict lookup distances[id1][id2]. -/
def dictGet2 (tbl : DistTable) (id1 id2 : ℤ) : Option ℚ :=
  match dictGet tbl id1 with
  | none => none
  | some inn => dictGet inn id2

/-- The weight closure of STHS._calculate_getis_ord:
1 * exp(-(z+1) * distances[gc1.id][gc2.id]), retrying the lookup with
the key order swapped on KeyError, and failing like the uncaught
KeyError when both orders miss. -/
def weight (fexp : ℚ → ℚ) (tbl : DistTable) (z : ℤ) (id1 id2 : ℤ) :
    Except String ℚ :=
  match dictGet2 tbl id1 id2 with
  | some d => .ok (1 * fexp (-((z : ℚ) + 1) * d))
  | none =>
    match dictGet2 tbl id2 id1 with
    | some d => .ok (1 * fexp (-((z : ℚ) + 1) * d))
    | none => .error "KeyError"

/-- A reference to the GetisCluster at position k of partition p of the
shared store (the Python object identity). -/
abbrev GcRef := ℕ × ℕ

/-- The shared mutable store of GetisCluster objects: the GC list of
lists itself. -/
abbrev GcStore := List (List GetisCluster)

/-- Junk value for out-of-range reads; never reached on the in-range
references the pipeline produces. -/
def dummyGC : GetisCluster := mkGetisCluster 0 [] 0

/-- Read the object a reference denotes. -/
def refGet (store : GcStore) (r : GcRef) : GetisCluster :=
  (store.getD r.1 []).getD r.2 dummyGC

/-- In-place field update of the object a reference denotes. -/
def refSet (store : GcStore) (r : GcRef) (gc : GetisCluster) : GcStore :=
  store.set r.1 ((store.getD r.1 []).set r.2 gc)

/-- The references Vj of window i: every cluster of partitions
i .. i + w - 1 in order ([gc for j in range(i, i+w) for gc in GC[j]]). -/
def windowRefs (GC : List (List GetisCluster)) (w i : ℕ) : List GcRef :=
  (List.range' i w).flatMap (fun j =>
    (List.range (GC.getD j []).length).map (fun k => (j, k)))

/-- critical value selection of STHS._calculate_getis_ord: 1.65 / 1.96 /
2.58 for a = 0.10 / 0.05 / 0.01, ValueError otherwise. -/
def criticalOf (a : ℚ) : Except String ℚ :=
  if a = 10 / 100 then .ok (165 / 100)
  else if a = 5 / 100 then .ok (196 / 100)
  else if a = 1 / 100 then .ok (258 / 100)
  else .error "ValueError: a must be 0.10, 0.05 or 0.01."

/-- The weighted sums of one gc1 over all gc2 of the window:
(sum of w * gc2.x, sum of w, sum of w squared), with
z = abs(gc1.t - gc2.t). -/
def gcSums (fexp : ℚ → ℚ) (tbl : DistTable) (gc1 : GetisCluster)
    (datas : List GetisCluster) : Except String (ℚ × ℚ × ℚ) :=
  datas.foldlM (fun acc gc2 => do
    let z : ℤ := |gc1.t - gc2.t|
    let wv ← weight fexp tbl z gc1.id gc2.id
    pure (acc.1 + wv * gc2.x, acc.2.1 + wv, acc.2.2 + wv ^ 2)) (0, 0, 0)

/-- Threshold classification applied after gi is written: Cold for
gi at most -critical, Hot for gi at least critical, otherwise the
object keeps its previous significant / spot values. -/
def applyThresholds (critical g : ℚ) (gc : GetisCluster) : GetisCluster :=
  if g ≤ -critical then { gc with significant := true, spot := some .Cold }
  else if critical ≤ g then { gc with significant := true, spot := some .Hot }
  else gc

/-- Processing of one gc1 of a window: accumulate the weighted sums,
compute gi with the two fallible divisions of the source expression
(swx - x_bar*sw) / (S * sqrt((n*sw2 - sw**2) / (n-1))), write gi into
the shared object, then select the critical value (ValueError for an
invalid a) and classify. -/
def processGc (fexp fsqrt : ℚ → ℚ) (tbl : DistTable) (a : ℚ) (n x_bar S : ℚ)
    (datas : List GetisCluster) (store : GcStore) (r : GcRef) :
    Except String GcStore := do
  let gc1 := refGet store r
  let sums ← gcSums fexp tbl gc1 datas
  let swx := sums.1
  let sw := sums.2.1
  let sw2 := sums.2.2
  let inner ← pydiv (n * sw2 - sw ^ 2) (n - 1)
  let g ← pydiv (swx - x_bar * sw) (S * fsqrt inner)
  let store1 := refSet store r { gc1 with gi := some g }
  let critical ← criticalOf a
  pure (refSet store1 r (applyThresholds critical g (refGet store1 r)))

/-- One window of STHS._calculate_getis_ord: on an empty Vj the store is
untouched (the code only appends the empty Vj to V); otherwise compute
n, x_bar and S = sqrt(mean of squares - square of mean) from the
window's objects and process every gc1 in order. -/
def processWindow (fexp fsqrt : ℚ → ℚ) (tbl : DistTable) (a : ℚ)
    (GC : List (List GetisCluster)) (w : ℕ) (store : GcStore) (i : ℕ) :
    Except String GcStore :=
  let refs := windowRefs GC w i
  let n : ℚ := (refs.length : ℚ)
  if refs.length = 0 then .ok store
  else
    let datas := refs.map (refGet store)
    let x_bar := (datas.map (fun d => d.x)).sum / n
    let S := fsqrt ((datas.map (fun d => d.x ^ 2)).sum / n - x_bar ^ 2)
    refs.foldlM (processGc fexp fsqrt tbl a n x_bar S datas) store

/-- STHS._calculate_getis_ord: build the distance table, process the
windows i in range(len(GC) - w + 1) in order against the shared store
(initially GC itself), and return, per window, the objects its
reference list denotes in the final store - the caller of fit observes
the aliased objects only after every window has run. -/
def getisOrd (w : ℕ) (fexp fsqrt : ℚ → ℚ) (fhav : Point → Point → ℚ)
    (a : ℚ) (GC : List (List GetisCluster)) :
    Except String (List (List GetisCluster)) := do
  let tbl := calculateDistance w fhav GC
  let wins := List.range (GC.length + 1 - w)
  let final ← wins.foldlM (processWindow fexp fsqrt tbl a GC w) GC
  pure (wins.map (fun i => (windowRefs GC w i).map (refGet final)))

/-- STHS.fit: _create_G, _g_clustering, _create_getis_clusters,
_calculate_getis_ord. -/
def sthsFit (interval : ℤ) (w : ℕ) (model : List (ℚ × ℚ) → List ℤ)
    (fexp fsqrt : ℚ → ℚ) (fhav : Point → Point → ℚ) (a : ℚ)
    (trajs : List Trajectory) : Except String (List (List GetisCluster)) :=
  getisOrd w fexp fsqrt fhav a (createGetisClusters (gClustering model (createG interval trajs)))

/-- Componentwise decidable equality for Except, to let closed theorems
evaluate whole pipeline runs. -/
instance exceptDecEq {ε α : Type} [DecidableEq ε] [DecidableEq α] :
    DecidableEq (Except ε α) := fun a b =>
  match a, b with
  | .error e, .error f =>
    if h : e = f then .isTrue (by rw [h]) else .isFalse (fun hh => by cases hh; exact h rfl)
  | .error _, .ok _ => .isFalse (fun hh => by cases hh)
  | .ok _, .error _ => .isFalse (fun hh => by cases hh)
  | .ok v, .ok w =>
    if h : v = w then .isTrue (by rw [h]) else .isFalse (fun hh => by cases hh; exact h rfl)

/-! ## Concrete instances used by counterexamples and witnesses -/

/-- Junk cluster for out-of-range getD reads in theorem statements. -/
def dummyCluster : Cluster := mkCluster 0 [] 0 none

/-- Junk partition for out-of-range getD reads in theorem statements. -/
def dummyTPartition : TPartition := { ts := 0, te := 0, tpoints := [] }

/-- A concrete choice for the abstract exponential. -/
def fexpLin : ℚ → ℚ := fun v => 1 + v

/-- A concrete choice for the abstract square root (only ever applied to
0 where its value matters to a counterexample: fsqrtId 0 = 0 exactly as
math.sqrt(0.0) = 0.0). -/
def fsqrtId : ℚ → ℚ := fun v => v

/-- A concrete choice for the abstract haversine distance. -/
def fhavAbsX : Point → Point → ℚ := fun p q => |p.x - q.x|

/-- A clustering capability labelling every point 5. -/
def labelAll5 : List (ℚ × ℚ) → List ℤ := fun d => d.map (fun _ => 5)

/-- A clustering capability labelling even positions 0 and odd ones
noise. -/
def vmodelAlt : List (ℚ × ℚ) → List ℤ :=
  fun d => (List.range d.length).map (fun i => if i % 2 = 0 then 0 else -1)

/-- A trajectory spanning [12, 15]. -/
def trajC1 : Trajectory := mkTrajectory ⟨0, 0, 12⟩ ⟨0, 0, 15⟩

/-- A trajectory spanning [0, 15]. -/
def trajC5 : Trajectory := mkTrajectory ⟨0, 0, 0⟩ ⟨0, 0, 15⟩

/-- Partition-0 cluster: one point at x = 0, feature x = 1. -/
def gcA : GetisCluster := mkGetisCluster 0 [⟨0, 0, 0, 0⟩] 0

/-- Partition-1 cluster: two points at x = 3, feature x = 2. -/
def gcB : GetisCluster := mkGetisCluster 1 [⟨3, 0, 0, 0⟩, ⟨3, 0, 0, 0⟩] 0

/-- Partition-2 cluster: five points at x = 10, feature x = 5. -/
def gcC : GetisCluster := mkGetisCluster 2
  [⟨10, 0, 0, 0⟩, ⟨10, 0, 0, 0⟩, ⟨10, 0, 0, 0⟩, ⟨10, 0, 0, 0⟩, ⟨10, 0, 0, 0⟩] 0

/-- A second one-point cluster, same feature value as gcA. -/
def gcD : GetisCluster := mkGetisCluster 1 [⟨3, 0, 0, 0⟩] 0

/-- Partition-0 cluster of the C4 example: feature x = 1 at x = 0. -/
def hA : GetisCluster := mkGetisCluster 0 [⟨0, 0, 0, 0⟩] 0

/-- Partition-1 cluster of the C4 example: feature x = 2 at x = 1. -/
def hB : GetisCluster := mkGetisCluster 1 [⟨1, 0, 0, 0⟩, ⟨1, 0, 0, 0⟩] 0

/-- Partition-2 cluster of the C4 example: feature x = 3 at x = 11. -/
def hC : GetisCluster := mkGetisCluster 2
  [⟨11, 0, 0, 0⟩, ⟨11, 0, 0, 0⟩, ⟨11, 0, 0, 0⟩] 0

/-- A concrete per-partition cluster list for STC witnesses. -/
def KEx : List (List Cluster) :=
  [[mkCluster 0 [⟨0, 0, 0, 0⟩] 0 (some 0)],
   [mkCluster 1 [⟨1, 0, 0, 1⟩] 0 (some 1)],
   []]

/-! ## Spec-side predicates -/

/-- The tiling property exactly as the spec states it (modelled from the
claim, to be compared with createG): the union of the partition ranges
is [0, hi) - every time instant below hi and no other is covered. -/
def coversExactlySpec (parts : List TPartition) (hi : ℤ) : Prop :=
  ∀ x : ℤ, (∃ p ∈ parts, p.ts ≤ x ∧ x < p.te) ↔ (0 ≤ x ∧ x < hi)

/-- No instant is covered by two distinct partitions. -/
def noOverlaps (parts : List TPartition) : Prop :=
  ∀ j k, j < parts.length → k < parts.length → j ≠ k →
    ∀ x : ℤ, ¬ (((parts.getD j dummyTPartition).ts ≤ x ∧ x < (parts.getD j dummyTPartition).te)
      ∧ ((parts.getD k dummyTPartition).ts ≤ x ∧ x < (parts.getD k dummyTPartition).te))

/-- The classification contract for one cluster at critical value c:
whatever gi value it reports, a value at or below -c comes with
significant = true and spot = Cold, a value at or above c with
significant = true and spot = Hot. -/
def giClassified (c : ℚ) (gc : GetisCluster) : Prop :=
  ∀ g, gc.gi = some g →
    (g ≤ -c → gc.significant = true ∧ gc.spot = some Spot.Cold) ∧
    (c ≤ g → gc.significant = true ∧ gc.spot = some Spot.Hot)

/-- A reference denotes an actual position of the store. -/
def inRange (store : GcStore) (r : GcRef) : Prop :=
  r.1 < store.length ∧ r.2 < (store.getD r.1 []).length

/-- Two stores with the same list-of-lists shape (in-place field updates
never change the shape). -/
def sameShape (s1 s2 : GcStore) : Prop :=
  s1.length = s2.length ∧ ∀ p, (s1.getD p []).length = (s2.getD p []).length

/-! ## Helper lemmas and claim theorems -/


/-! ## Helper lemmas -/

theorem getD_map_range {β : Type} (f : ℕ → β) {n i : ℕ} (hi : i < n) (d : β) :
    ((List.range n).map f).getD i d = f i := by
  simp [List.getD_eq_getElem?_getD, List.getElem?_map, List.getElem?_range hi]

theorem getD_map_of_lt {α β : Type} (f : α → β) (l : List α) {k : ℕ}
    (hk : k < l.length) (d1 : α) (d2 : β) :
    (l.map f).getD k d2 = f (l.getD k d1) := by
  simp [List.getD_eq_getElem?_getD, List.getElem?_map, List.getElem?_eq_getElem hk]

theorem except_bind_ok {α β : Type} {x : Except String α} {f : α → Except String β} {b : β}
    (h : (x >>= f) = .ok b) : ∃ a, x = .ok a ∧ f a = .ok b := by
  cases x with
  | error e => exact absurd h (by simp [Bind.bind, Except.bind])
  | ok a => exact ⟨a, rfl, by simpa [Bind.bind, Except.bind] using h⟩

theorem foldlM_except_cons {α σ : Type} (f : σ → α → Except String σ) (s : σ) (x : α)
    (xs : List α) :
    List.foldlM f s (x :: xs) = (f s x) >>= (fun s2 => List.foldlM f s2 xs) := by
  simp [List.foldlM]

theorem foldlM_except_nil {α σ : Type} (f : σ → α → Except String σ) (s : σ) :
    List.foldlM f s [] = .ok s := rfl

theorem getisOrd_ok {w : ℕ} {fexp fsqrt : ℚ → ℚ} {fhav : Point → Point → ℚ} {a : ℚ}
    {GC V : List (List GetisCluster)} (h : getisOrd w fexp fsqrt fhav a GC = .ok V) :
    ∃ final, List.foldlM (processWindow fexp fsqrt (calculateDistance w fhav GC) a GC w) GC
        (List.range (GC.length + 1 - w)) = .ok final
      ∧ V = (List.range (GC.length + 1 - w)).map
          (fun i => (windowRefs GC w i).map (refGet final)) := by
  unfold getisOrd at h
  obtain ⟨final, h1, h2⟩ := except_bind_ok h
  exact ⟨final, h1, (Except.ok.inj h2).symm⟩


theorem vClustering_getD_1 (vmodel : List (ℚ × ℚ) → List ℤ) (w i : ℕ)
    (K : List (List Cluster)) (hi : i < K.length + 1 - w) :
    (vClustering vmodel w K).1.getD i [] = (vWindow vmodel K w i).1 := by
  unfold vClustering
  exact getD_map_range _ hi _

theorem vClustering_getD_2 (vmodel : List (ℚ × ℚ) → List ℤ) (w i : ℕ)
    (K : List (List Cluster)) (hi : i < K.length + 1 - w) :
    (vClustering vmodel w K).2.getD i [] = (vWindow vmodel K w i).2 := by
  unfold vClustering
  exact getD_map_range _ hi _

theorem vWindow_mem (vmodel : List (ℚ × ℚ) → List ℤ) (w i : ℕ)
    (K : List (List Cluster)) (cl : Cluster)
    (hcl : cl ∈ (vWindow vmodel K w i).1 ∨ cl ∈ (vWindow vmodel K w i).2) :
    ∃ k, k < (windowUnion K w i).length ∧ cl.id = (k : ℤ)
      ∧ cl.cpoints = ((windowUnion K w i).getD k dummyCluster).cpoints
      ∧ cl.t = ((windowUnion K w i).getD k dummyCluster).t := by
  unfold vWindow at hcl
  by_cases hlen : ((windowUnion K w i).map (fun c => (c.m.x, c.m.y))).length = 0
  · simp only [hlen, if_pos rfl] at hcl
    rcases hcl with h | h <;> simp at h
  · simp only [hlen, if_neg hlen] at hcl
    have hstep : ∃ p : ℕ × Cluster, p ∈ (windowUnion K w i).enum ∧
        cl = mkCluster (p.1 : ℤ) p.2.cpoints p.2.t
          (some ((vmodel ((windowUnion K w i).map (fun c => (c.m.x, c.m.y)))).getD p.1 (-1))) := by
      rcases hcl with h | h <;>
      · obtain ⟨p, hp, rfl⟩ := List.mem_map.mp h
        exact ⟨p, (List.mem_filter.mp hp).1, rfl⟩
    obtain ⟨p, hp, rfl⟩ := hstep
    have hpe := List.mem_enum_iff_getElem?.mp hp
    have hklt : p.1 < (windowUnion K w i).length := by
      by_contra hge
      rw [List.getElem?_eq_none (by omega)] at hpe
      cases hpe
    have hgd : (windowUnion K w i).getD p.1 dummyCluster = p.2 := by
      rw [List.getD_eq_getElem?_getD, hpe]
      rfl
    exact ⟨p.1, hklt, rfl, by rw [hgd]; rfl, by rw [hgd]; rfl⟩


theorem le_mul_ceilDiv (a b : ℕ) (hb : 0 < b) : a ≤ b * ((a + b - 1) / b) := by
  rcases Nat.eq_zero_or_pos a with rfl | ha
  · simp
  · have hab : a + b - 1 = (a - 1) + b := by omega
    rw [hab, Nat.add_div_right _ hb, Nat.mul_succ]
    have h1 := Nat.div_add_mod (a - 1) b
    have h2 := Nat.mod_lt (a - 1) hb
    generalize hbq : b * ((a - 1) / b) = bq at h1 ⊢
    omega

theorem mul_ceilDiv_le (a b : ℕ) : b * ((a + b - 1) / b) ≤ a + b - 1 :=
  Nat.mul_div_le _ b

theorem createG_getD (interval : ℤ) (trajs : List Trajectory) {j : ℕ}
    (hj : j < numSlices (maxEndT trajs) interval) :
    (createG interval trajs).getD j dummyTPartition =
      { ts := (j : ℤ) * interval, te := (j : ℤ) * interval + interval,
        tpoints := (trajs.filter (fun tr =>
            decide (¬ (tr.tps.t > (j : ℤ) * interval + interval ∨ tr.tpe.t < (j : ℤ) * interval)))).map
          (fun tr => { x := tr.m.x, y := tr.m.y, t := (j : ℤ) * interval }) } := by
  unfold createG
  rw [getD_map_range _ hj]

theorem createG_length (interval : ℤ) (trajs : List Trajectory) :
    (createG interval trajs).length = numSlices (maxEndT trajs) interval := by
  simp [createG]

/-- C5 amended: for a non-empty trajectory sequence and interval > 0,
ST._create_G emits n = ceil(maxEnd / interval) consecutive partitions
[k * interval, (k+1) * interval), tiling [0, n * interval) with no gaps
and no overlaps; the upper end is the maximal trajectory end time
rounded up to the next multiple of interval (equal to it only when
interval divides it), not max end itself. -/
theorem C5_amended_tiling (interval : ℤ) (trajs : List Trajectory)
    (hpos : 0 < interval) (hne : trajs ≠ []) :
    (createG interval trajs).length = numSlices (maxEndT trajs) interval
    ∧ (∀ j : ℕ, j < numSlices (maxEndT trajs) interval →
        ((createG interval trajs).getD j dummyTPartition).ts = (j : ℤ) * interval
        ∧ ((createG interval trajs).getD j dummyTPartition).te = ((j : ℤ) + 1) * interval)
    ∧ coversExactlySpec (createG interval trajs)
        ((numSlices (maxEndT trajs) interval : ℤ) * interval)
    ∧ noOverlaps (createG interval trajs)
    ∧ maxEndT trajs ≤ (numSlices (maxEndT trajs) interval : ℤ) * interval
    ∧ (0 < maxEndT trajs →
        (numSlices (maxEndT trajs) interval : ℤ) * interval < maxEndT trajs + interval) := by
  have hbpos : 0 < interval.toNat := by omega
  have hbcast : ((interval.toNat : ℤ)) = interval := by omega
  refine ⟨createG_length interval trajs, ?_, ?_, ?_, ?_, ?_⟩
  · intro j hj
    rw [createG_getD interval trajs hj]
    exact ⟨rfl, by ring⟩
  · intro x
    constructor
    · rintro ⟨p, hp, hts, hte⟩
      unfold createG at hp
      obtain ⟨k, hk, rfl⟩ := List.mem_map.mp hp
      have hkn : k < numSlices (maxEndT trajs) interval := List.mem_range.mp hk
      simp only at hts hte
      have h0 : (0 : ℤ) ≤ (k : ℤ) * interval :=
        mul_nonneg (by positivity) (le_of_lt hpos)
      have hup : ((k : ℤ) + 1) * interval ≤ (numSlices (maxEndT trajs) interval : ℤ) * interval := by
        refine mul_le_mul_of_nonneg_right ?_ (le_of_lt hpos)
        exact_mod_cast hkn
      constructor
      · linarith
      · have : x < ((k : ℤ) + 1) * interval := by linarith [hte]
        linarith
    · rintro ⟨hx0, hxn⟩
      have hq0 : 0 ≤ x / interval := Int.ediv_nonneg hx0 (le_of_lt hpos)
      have hqe := Int.ediv_add_emod x interval
      have hr0 : 0 ≤ x % interval := Int.emod_nonneg x (ne_of_gt hpos)
      have hrlt : x % interval < interval := Int.emod_lt_of_pos x hpos
      have hql : (x / interval) * interval ≤ x := by nlinarith [hqe]
      have hqu : x < (x / interval + 1) * interval := by nlinarith [hqe]
      have hqn : x / interval < (numSlices (maxEndT trajs) interval : ℤ) := by
        have hh : (x / interval) * interval <
            (numSlices (maxEndT trajs) interval : ℤ) * interval := by linarith
        exact (mul_lt_mul_right hpos).mp hh
      have hjn : (x / interval).toNat < numSlices (maxEndT trajs) interval := by omega
      have hjcast : (((x / interval).toNat : ℤ)) = x / interval :=
        Int.toNat_of_nonneg hq0
      refine ⟨(createG interval trajs).getD (x / interval).toNat dummyTPartition, ?_, ?_, ?_⟩
      · rw [createG_getD interval trajs hjn]
        unfold createG
        refine List.mem_map.mpr ⟨(x / interval).toNat, List.mem_range.mpr hjn, rfl⟩
      · rw [createG_getD interval trajs hjn]
        simp only [hjcast]
        exact hql
      · rw [createG_getD interval trajs hjn]
        simp only [hjcast]
        linarith [hqu]
  · intro j k hj hk hjk x hx
    rw [createG_length interval trajs] at hj hk
    rw [createG_getD interval trajs hj, createG_getD interval trajs hk] at hx
    simp only at hx
    obtain ⟨⟨h1, h2⟩, h3, h4⟩ := hx
    rcases Nat.lt_or_ge j k with hlt | hge
    · have : ((j : ℤ) + 1) * interval ≤ (k : ℤ) * interval := by
        refine mul_le_mul_of_nonneg_right ?_ (le_of_lt hpos)
        exact_mod_cast hlt
      nlinarith
    · have hlt2 : k < j := by omega
      have : ((k : ℤ) + 1) * interval ≤ (j : ℤ) * interval := by
        refine mul_le_mul_of_nonneg_right ?_ (le_of_lt hpos)
        exact_mod_cast hlt2
      nlinarith
  · rcases le_or_lt (maxEndT trajs) 0 with hM | hM
    · have : (0 : ℤ) ≤ (numSlices (maxEndT trajs) interval : ℤ) * interval :=
        mul_nonneg (by positivity) (le_of_lt hpos)
      linarith
    · have hnat : (maxEndT trajs).toNat ≤
          interval.toNat * numSlices (maxEndT trajs) interval :=
        le_mul_ceilDiv (maxEndT trajs).toNat interval.toNat hbpos
      have hcast : ((maxEndT trajs).toNat : ℤ) = maxEndT trajs := by omega
      have h2 : ((maxEndT trajs).toNat : ℤ) ≤
          (interval.toNat : ℤ) * (numSlices (maxEndT trajs) interval : ℤ) := by
        exact_mod_cast hnat
      rw [hcast, hbcast] at h2
      linarith [h2]
  · intro hM
    have hnat : interval.toNat * numSlices (maxEndT trajs) interval ≤
        (maxEndT trajs).toNat + interval.toNat - 1 :=
      mul_ceilDiv_le (maxEndT trajs).toNat interval.toNat
    have hlt : interval.toNat * numSlices (maxEndT trajs) interval <
        (maxEndT trajs).toNat + interval.toNat := by omega
    have hcast : ((maxEndT trajs).toNat : ℤ) = maxEndT trajs := by omega
    have h2 : (interval.toNat : ℤ) * (numSlices (maxEndT trajs) interval : ℤ) <
        ((maxEndT trajs).toNat : ℤ) + (interval.toNat : ℤ) := by
      exact_mod_cast hlt
    rw [hcast, hbcast] at h2
    linarith [h2]

/-- Witness for C5 amended at interval 10 and a trajectory ending at
t = 15: two partitions [0, 10), [10, 20) tiling [0, 20). -/
theorem C5_amended_witness :
    (createG 10 [trajC5]).length = numSlices (maxEndT [trajC5]) 10
    ∧ (∀ j : ℕ, j < numSlices (maxEndT [trajC5]) 10 →
        ((createG 10 [trajC5]).getD j dummyTPartition).ts = (j : ℤ) * 10
        ∧ ((createG 10 [trajC5]).getD j dummyTPartition).te = ((j : ℤ) + 1) * 10)
    ∧ coversExactlySpec (createG 10 [trajC5]) ((numSlices (maxEndT [trajC5]) 10 : ℤ) * 10)
    ∧ noOverlaps (createG 10 [trajC5])
    ∧ maxEndT [trajC5] ≤ (numSlices (maxEndT [trajC5]) 10 : ℤ) * 10
    ∧ (0 < maxEndT [trajC5] →
        (numSlices (maxEndT [trajC5]) 10 : ℤ) * 10 < maxEndT [trajC5] + 10) :=
  C5_amended_tiling 10 [trajC5] (by decide) (by decide)


theorem dictGet_nil {α : Type} (k : ℤ) : dictGet ([] : List (ℤ × α)) k = none := rfl

theorem dictGet_cons {α : Type} (kv : ℤ × α) (d : List (ℤ × α)) (k : ℤ) :
    dictGet (kv :: d) k = if kv.1 = k then some kv.2 else dictGet d k := by
  unfold dictGet
  by_cases h : kv.1 = k <;> simp [List.find?_cons, h]

theorem dictGet_append {α : Type} (d e : List (ℤ × α)) (k : ℤ) :
    dictGet (d ++ e) k =
      match dictGet d k with | some v => some v | none => dictGet e k := by
  induction d with
  | nil => simp [dictGet_nil]
  | cons kv rest ih =>
    by_cases h : kv.1 = k <;> simp [dictGet_cons, h, ih]

theorem dictGet_replace_self {α : Type} (d : List (ℤ × α)) (k : ℤ) (v : α) :
    dictGet (d.map (fun kv => if kv.1 = k then (k, v) else kv)) k =
      if d.any (fun kv => decide (kv.1 = k)) then some v else none := by
  induction d with
  | nil => rfl
  | cons kv rest ih =>
    by_cases h : kv.1 = k
    · simp [dictGet_cons, h, List.any_cons]
    · rw [List.map_cons, if_neg h, dictGet_cons, if_neg h, ih, List.any_cons,
        decide_eq_false h, Bool.false_or]

theorem dictGet_replace_ne {α : Type} (d : List (ℤ × α)) (k k2 : ℤ) (v : α)
    (hne : k2 ≠ k) :
    dictGet (d.map (fun kv => if kv.1 = k then (k, v) else kv)) k2 = dictGet d k2 := by
  induction d with
  | nil => rfl
  | cons kv rest ih =>
    by_cases h : kv.1 = k
    · have hkk : ¬ (k = k2) := fun hc => hne hc.symm
      simp [dictGet_cons, h, ih, hkk]
    · by_cases h2 : kv.1 = k2 <;> simp [dictGet_cons, h, h2, ih, hne]

theorem dictGet_eq_none_of_not_any {α : Type} (d : List (ℤ × α)) (k : ℤ)
    (h : ¬ d.any (fun kv => decide (kv.1 = k))) : dictGet d k = none := by
  induction d with
  | nil => rfl
  | cons kv rest ih =>
    have hk : ¬ kv.1 = k := fun hc => h (by simp [List.any_cons, hc])
    rw [dictGet_cons, if_neg hk]
    exact ih (fun hc => h (by simp [List.any_cons]; right; simpa using hc))

theorem dictGet_dictSet_self {α : Type} (d : List (ℤ × α)) (k : ℤ) (v : α) :
    dictGet (dictSet d k v) k = some v := by
  unfold dictSet
  by_cases hany : d.any (fun kv => decide (kv.1 = k))
  · rw [if_pos hany, dictGet_replace_self, if_pos hany]
  · rw [if_neg hany, dictGet_append, dictGet_eq_none_of_not_any d k hany]
    simp [dictGet_cons]

theorem dictGet_dictSet_ne {α : Type} (d : List (ℤ × α)) (k k2 : ℤ) (v : α)
    (hne : k2 ≠ k) : dictGet (dictSet d k v) k2 = dictGet d k2 := by
  unfold dictSet
  by_cases hany : d.any (fun kv => decide (kv.1 = k))
  · rw [if_pos hany]
    exact dictGet_replace_ne d k k2 v hne
  · rw [if_neg hany, dictGet_append]
    cases hd : dictGet d k2 with
    | some v2 => rfl
    | none =>
      have hkk : ¬ (k = k2) := fun hc => hne hc.symm
      simp [dictGet_cons, hkk, dictGet_nil]


theorem foldl_dictSet_frame {α β : Type} (key : α → ℤ) (val : α → β)
    (L : List α) (d0 : List (ℤ × β)) (k : ℤ) (hk : ∀ x ∈ L, key x ≠ k) :
    dictGet (L.foldl (fun d x => dictSet d (key x) (val x)) d0) k = dictGet d0 k := by
  induction L generalizing d0 with
  | nil => rfl
  | cons x xs ih =>
    rw [List.foldl_cons, ih _ (fun y hy => hk y (List.mem_cons_of_mem x hy))]
    exact dictGet_dictSet_ne d0 (key x) k (val x)
      (fun hc => hk x (List.mem_cons_self x xs) hc.symm)

theorem foldl_dictSet_stable {α β : Type} (key : α → ℤ) (val : α → β)
    (L : List α) (d0 : List (ℤ × β)) (k : ℤ) (v : β) (hd : dictGet d0 k = some v)
    (hagree : ∀ x ∈ L, key x = k → val x = v) :
    dictGet (L.foldl (fun d x => dictSet d (key x) (val x)) d0) k = some v := by
  induction L generalizing d0 with
  | nil => exact hd
  | cons x xs ih =>
    rw [List.foldl_cons]
    by_cases hx : key x = k
    · refine ih _ ?_ (fun y hy hyk => hagree y (List.mem_cons_of_mem x hy) hyk)
      rw [← hx, dictGet_dictSet_self, hagree x (List.mem_cons_self x xs) hx]
    · refine ih _ ?_ (fun y hy hyk => hagree y (List.mem_cons_of_mem x hy) hyk)
      rw [dictGet_dictSet_ne d0 (key x) k (val x) (fun hc => hx hc.symm)]
      exact hd

theorem foldl_dictSet_mem {α β : Type} (key : α → ℤ) (val : α → β)
    (L : List α) (d0 : List (ℤ × β)) (x : α) (hx : x ∈ L)
    (hagree : ∀ y ∈ L, key y = key x → val y = val x) :
    dictGet (L.foldl (fun d x => dictSet d (key x) (val x)) d0) (key x) = some (val x) := by
  induction L generalizing d0 with
  | nil => cases hx
  | cons y ys ih =>
    rw [List.foldl_cons]
    rcases List.mem_cons.mp hx with rfl | hxs
    · exact foldl_dictSet_stable key val ys _ (key x) (val x)
        (dictGet_dictSet_self d0 (key x) (val x))
        (fun z hz hzk => hagree z (List.mem_cons_of_mem x hz) hzk)
    · exact ih _ hxs (fun z hz hzk => hagree z (List.mem_cons_of_mem y hz) hzk)

theorem foldl_dictSet_lookup_some {α β : Type} (key : α → ℤ) (val : α → β)
    (L : List α) (k : ℤ)
    (hlook : dictGet (L.foldl (fun d x => dictSet d (key x) (val x)) []) k ≠ none) :
    ∃ x ∈ L, key x = k := by
  by_contra hall
  push_neg at hall
  exact hlook (by rw [foldl_dictSet_frame key val L [] k hall]; rfl)

theorem dictGet2_eq_some {tbl : DistTable} {id1 id2 : ℤ} {dq : ℚ}
    (h : dictGet2 tbl id1 id2 = some dq) :
    ∃ inn, dictGet tbl id1 = some inn ∧ dictGet inn id2 = some dq := by
  unfold dictGet2 at h
  cases houter : dictGet tbl id1 with
  | none => rw [houter] at h; exact Option.noConfusion h
  | some inn => rw [houter] at h; exact ⟨inn, rfl, h⟩

theorem gcPairs_mem {GC : List (List GetisCluster)} {x : ℕ × GetisCluster} :
    x ∈ gcPairs GC ↔ x.1 < GC.length ∧ x.2 ∈ GC.getD x.1 [] := by
  unfold gcPairs
  simp only [List.mem_flatMap, List.mem_range, List.mem_map]
  constructor
  · rintro ⟨i, hi, a, ha, rfl⟩
    exact ⟨hi, ha⟩
  · rintro ⟨h1, h2⟩
    exact ⟨x.1, h1, x.2, h2, rfl⟩

theorem distTargets_mem {w : ℕ} {GC : List (List GetisCluster)} {i : ℕ}
    {b : GetisCluster} :
    b ∈ distTargets w GC i ↔
      ∃ q, i ≤ q ∧ q < min (i + w) GC.length ∧ b ∈ GC.getD q [] := by
  unfold distTargets
  simp only [List.mem_flatten, List.mem_map, List.mem_range'_1]
  constructor
  · rintro ⟨l, ⟨q, ⟨hq1, hq2⟩, rfl⟩, hb⟩
    exact ⟨q, hq1, by omega, hb⟩
  · rintro ⟨q, hq1, hq2, hb⟩
    exact ⟨GC.getD q [], ⟨q, ⟨hq1, by omega⟩, rfl⟩, hb⟩

theorem calculateDistance_outer (w : ℕ) (fhav : Point → Point → ℚ)
    (GC : List (List GetisCluster))
    (hids : ∀ x ∈ gcPairs GC, ∀ y ∈ gcPairs GC, x.2.id = y.2.id → x = y)
    {x : ℕ × GetisCluster} (hx : x ∈ gcPairs GC) :
    dictGet (calculateDistance w fhav GC) x.2.id =
      some ((distTargets w GC x.1).foldl
        (fun inn c => dictSet inn c.id (fhav x.2.m c.m)) []) := by
  have h := foldl_dictSet_mem (fun ia : ℕ × GetisCluster => ia.2.id)
    (fun ia => (distTargets w GC ia.1).foldl
      (fun inn c => dictSet inn c.id (fhav ia.2.m c.m)) [])
    (gcPairs GC) [] x hx
    (fun y hy hyk => by rw [hids y hy x hx hyk])
  exact h

theorem calculateDistance_stored (w : ℕ) (fhav : Point → Point → ℚ)
    (GC : List (List GetisCluster))
    (hids : ∀ x ∈ gcPairs GC, ∀ y ∈ gcPairs GC, x.2.id = y.2.id → x = y)
    {p q : ℕ} {a b : GetisCluster} (hp : p < GC.length) (hq : q < GC.length)
    (ha : a ∈ GC.getD p []) (hb : b ∈ GC.getD q []) (hpq : p ≤ q) (hqw : q < p + w) :
    dictGet2 (calculateDistance w fhav GC) a.id b.id = some (fhav a.m b.m) := by
  have hxa : ((p, a) : ℕ × GetisCluster) ∈ gcPairs GC := gcPairs_mem.mpr ⟨hp, ha⟩
  have hxb : b ∈ distTargets w GC p := distTargets_mem.mpr ⟨q, hpq, by omega, hb⟩
  have houter := calculateDistance_outer w fhav GC hids hxa
  have hinner : dictGet ((distTargets w GC p).foldl
      (fun inn c => dictSet inn c.id (fhav a.m c.m)) []) b.id = some (fhav a.m b.m) := by
    have h := foldl_dictSet_mem (fun c : GetisCluster => c.id)
      (fun c => fhav a.m c.m) (distTargets w GC p) [] b hxb ?_
    · exact h
    · intro y hy hyk
      obtain ⟨qy, hqy1, hqy2, hyb⟩ := distTargets_mem.mp hy
      have hybpair : ((qy, y) : ℕ × GetisCluster) ∈ gcPairs GC :=
        gcPairs_mem.mpr ⟨by omega, hyb⟩
      have hbpair : ((q, b) : ℕ × GetisCluster) ∈ gcPairs GC := gcPairs_mem.mpr ⟨hq, hb⟩
      have heq := hids (qy, y) hybpair (q, b) hbpair hyk
      injection heq with h1 h2
      rw [h2]
  unfold dictGet2
  rw [houter]
  exact hinner

/-- C8: the distance table of STHS._calculate_distance stores an entry
only from a cluster of partition p to a cluster of a partition in
p .. p + w (in fact p .. p + w - 1, truncated at the end of the
partition list), never the full cross-product; and for any two clusters
co-occurring in a window (partitions within [i, i + w) for a valid
window start i) the lookup succeeds in at least one of the two key
orders, so the weight fallback never fails inside a window. -/
theorem C8_distance_table_bounded_and_total (w : ℕ) (fhav : Point → Point → ℚ)
    (GC : List (List GetisCluster))
    (hids : ∀ x ∈ gcPairs GC, ∀ y ∈ gcPairs GC, x.2.id = y.2.id → x = y) :
    (∀ ida idb dq, dictGet2 (calculateDistance w fhav GC) ida idb = some dq →
      ∃ p q a b, p < GC.length ∧ q < GC.length
        ∧ a ∈ GC.getD p [] ∧ b ∈ GC.getD q [] ∧ a.id = ida ∧ b.id = idb
        ∧ p ≤ q ∧ q ≤ p + w)
    ∧ (∀ i p q a b, i + w ≤ GC.length → i ≤ p → p < i + w → i ≤ q → q < i + w →
        a ∈ GC.getD p [] → b ∈ GC.getD q [] →
        ((dictGet2 (calculateDistance w fhav GC) a.id b.id).isSome
          ∨ (dictGet2 (calculateDistance w fhav GC) b.id a.id).isSome)) := by
  constructor
  · intro ida idb dq hlook
    obtain ⟨inn, houter, hinner⟩ := dictGet2_eq_some hlook
    have hex : ∃ x ∈ gcPairs GC, x.2.id = ida := by
      refine foldl_dictSet_lookup_some (fun ia : ℕ × GetisCluster => ia.2.id)
        (fun ia => (distTargets w GC ia.1).foldl
          (fun inn c => dictSet inn c.id (fhav ia.2.m c.m)) [])
        (gcPairs GC) ida ?_
      intro hc
      have hc2 : dictGet (calculateDistance w fhav GC) ida = none := hc
      rw [houter] at hc2
      exact Option.noConfusion hc2
    obtain ⟨x, hxmem, hxid⟩ := hex
    have houter2 := calculateDistance_outer w fhav GC hids hxmem
    rw [hxid, houter] at houter2
    have hinn : inn = (distTargets w GC x.1).foldl
        (fun inn c => dictSet inn c.id (fhav x.2.m c.m)) [] := by
      injection houter2
    subst hinn
    have hexb : ∃ c ∈ distTargets w GC x.1, c.id = idb := by
      refine foldl_dictSet_lookup_some (fun c : GetisCluster => c.id)
        (fun c => fhav x.2.m c.m) (distTargets w GC x.1) idb ?_
      intro hc
      have hc2 : dictGet ((distTargets w GC x.1).foldl
          (fun inn c => dictSet inn c.id (fhav x.2.m c.m)) []) idb = none := hc
      rw [hinner] at hc2
      exact Option.noConfusion hc2
    obtain ⟨c, hcmem, hcid⟩ := hexb
    obtain ⟨qc, hqc1, hqc2, hcb⟩ := distTargets_mem.mp hcmem
    have hx12 := gcPairs_mem.mp hxmem
    exact ⟨x.1, qc, x.2, c, hx12.1, by omega, hx12.2, hcb, hxid, hcid, hqc1, by omega⟩
  · intro i p q a b hiw hip hpi hiq hqi ha hb
    rcases le_total p q with hpq | hqp
    · left
      rw [calculateDistance_stored w fhav GC hids (by omega) (by omega) ha hb hpq (by omega)]
      rfl
    · right
      rw [calculateDistance_stored w fhav GC hids (by omega) (by omega) hb ha hqp (by omega)]
      rfl

unseal Rat.add Rat.mul Rat.inv Rat.sub in
/-- Witness for C8 at a concrete three-partition input with distinct
ids. -/
theorem C8_witness :
    (∀ ida idb dq, dictGet2 (calculateDistance 2 fhavAbsX [[gcA], [gcB], [gcC]]) ida idb = some dq →
      ∃ p q a b, p < ([[gcA], [gcB], [gcC]] : List (List GetisCluster)).length
        ∧ q < ([[gcA], [gcB], [gcC]] : List (List GetisCluster)).length
        ∧ a ∈ ([[gcA], [gcB], [gcC]] : List (List GetisCluster)).getD p []
        ∧ b ∈ ([[gcA], [gcB], [gcC]] : List (List GetisCluster)).getD q []
        ∧ a.id = ida ∧ b.id = idb ∧ p ≤ q ∧ q ≤ p + 2)
    ∧ (∀ i p q a b, i + 2 ≤ ([[gcA], [gcB], [gcC]] : List (List GetisCluster)).length →
        i ≤ p → p < i + 2 → i ≤ q → q < i + 2 →
        a ∈ ([[gcA], [gcB], [gcC]] : List (List GetisCluster)).getD p [] →
        b ∈ ([[gcA], [gcB], [gcC]] : List (List GetisCluster)).getD q [] →
        ((dictGet2 (calculateDistance 2 fhavAbsX [[gcA], [gcB], [gcC]]) a.id b.id).isSome
          ∨ (dictGet2 (calculateDistance 2 fhavAbsX [[gcA], [gcB], [gcC]]) b.id a.id).isSome)) :=
  C8_distance_table_bounded_and_total 2 fhavAbsX [[gcA], [gcB], [gcC]] (by decide)


theorem getD_set_self {α : Type} (l : List α) (i : ℕ) (a d : α) (h : i < l.length) :
    (l.set i a).getD i d = a := by
  simp [List.getD_eq_getElem?_getD, List.getElem?_set, h]

theorem getD_set_ne {α : Type} (l : List α) (i j : ℕ) (a d : α) (h : i ≠ j) :
    (l.set i a).getD j d = l.getD j d := by
  simp [List.getD_eq_getElem?_getD, List.getElem?_set, h]

theorem sameShape_refl (s : GcStore) : sameShape s s := ⟨rfl, fun _ => rfl⟩

theorem sameShape_trans {s1 s2 s3 : GcStore} (h1 : sameShape s1 s2)
    (h2 : sameShape s2 s3) : sameShape s1 s3 :=
  ⟨h1.1.trans h2.1, fun p => (h1.2 p).trans (h2.2 p)⟩

theorem inRange_of_shape {s1 s2 : GcStore} {r : GcRef} (hs : sameShape s1 s2)
    (h : inRange s2 r) : inRange s1 r := by
  unfold inRange at h ⊢
  rw [hs.1, hs.2 r.1]
  exact h

theorem refSet_shape (s : GcStore) (r : GcRef) (gc : GetisCluster) :
    sameShape (refSet s r gc) s := by
  constructor
  · unfold refSet
    exact List.length_set s r.1 _
  · intro p
    unfold refSet
    by_cases hp : r.1 = p
    · subst hp
      by_cases hlt : r.1 < s.length
      · rw [getD_set_self s r.1 _ [] hlt, List.length_set]
      · rw [List.set_eq_of_length_le (by omega)]
    · rw [getD_set_ne s r.1 p _ [] hp]

theorem refGet_refSet_self {s : GcStore} {r : GcRef} (gc : GetisCluster)
    (hin : inRange s r) : refGet (refSet s r gc) r = gc := by
  obtain ⟨h1, h2⟩ := hin
  unfold refGet refSet
  rw [getD_set_self s r.1 _ [] h1, getD_set_self _ r.2 _ dummyGC h2]

theorem refGet_refSet_ne {s : GcStore} {r r2 : GcRef} (gc : GetisCluster)
    (hne : r2 ≠ r) : refGet (refSet s r gc) r2 = refGet s r2 := by
  unfold refGet refSet
  by_cases h1 : r.1 = r2.1
  · have h2 : r.2 ≠ r2.2 := by
      intro hc
      exact hne (Prod.ext h1.symm hc.symm)
    by_cases hlt : r.1 < s.length
    · rw [← h1, getD_set_self s r.1 _ [] hlt, getD_set_ne _ r.2 r2.2 _ dummyGC h2]
    · rw [List.set_eq_of_length_le (by omega)]
  · rw [getD_set_ne s r.1 r2.1 _ [] h1]


theorem criticalOf_pos {a c : ℚ} (h : criticalOf a = .ok c) : 0 < c := by
  unfold criticalOf at h
  split_ifs at h <;> (injection h with h2; rw [← h2]; norm_num)

theorem processGc_ok_shape {fexp fsqrt : ℚ → ℚ} {tbl : DistTable} {a n x_bar S : ℚ}
    {datas : List GetisCluster} {store : GcStore} {r : GcRef} {store2 : GcStore}
    (h : processGc fexp fsqrt tbl a n x_bar S datas store r = .ok store2) :
    ∃ g c, criticalOf a = .ok c ∧
      store2 = refSet (refSet store r { refGet store r with gi := some g }) r
        (applyThresholds c g
          (refGet (refSet store r { refGet store r with gi := some g }) r)) := by
  unfold processGc at h
  obtain ⟨sums, hs, h⟩ := except_bind_ok h
  obtain ⟨inner, hi, h⟩ := except_bind_ok h
  obtain ⟨g, hg, h⟩ := except_bind_ok h
  obtain ⟨c, hc, h⟩ := except_bind_ok h
  exact ⟨g, c, hc, (Except.ok.inj h).symm⟩

theorem processGc_error_of_invalid {fexp fsqrt : ℚ → ℚ} {tbl : DistTable}
    {a n x_bar S : ℚ} {datas : List GetisCluster}
    (hinv : (criticalOf a).toOption = none) (store : GcStore) (r : GcRef) :
    ∃ e, processGc fexp fsqrt tbl a n x_bar S datas store r = .error e := by
  unfold processGc
  cases hs : gcSums fexp tbl (refGet store r) datas with
  | error e => exact ⟨e, by simp [hs, Bind.bind, Except.bind]⟩
  | ok sums =>
    cases hi : pydiv (n * sums.2.2 - sums.2.1 ^ 2) (n - 1) with
    | error e => exact ⟨e, by simp [hs, hi, Bind.bind, Except.bind]⟩
    | ok inner =>
      cases hg : pydiv (sums.1 - x_bar * sums.2.1) (S * fsqrt inner) with
      | error e => exact ⟨e, by simp [hs, hi, hg, Bind.bind, Except.bind]⟩
      | ok g =>
        cases hc : criticalOf a with
        | ok cv => rw [hc] at hinv; cases hinv
        | error e => exact ⟨e, by simp [hs, hi, hg, hc, Bind.bind, Except.bind]⟩

theorem giClassified_applyThresholds {c : ℚ} (hcpos : 0 < c) (gc : GetisCluster)
    (g : ℚ) : giClassified c (applyThresholds c g { gc with gi := some g }) := by
  unfold applyThresholds giClassified
  by_cases h1 : g ≤ -c
  · rw [if_pos h1]
    intro g2 hg2
    have hgg : g = g2 := by simpa using hg2
    subst hgg
    exact ⟨fun _ => ⟨rfl, rfl⟩, fun hcg => absurd hcg (by linarith)⟩
  · rw [if_neg h1]
    by_cases h2 : c ≤ g
    · rw [if_pos h2]
      intro g2 hg2
      have hgg : g = g2 := by simpa using hg2
      subst hgg
      exact ⟨fun hcg => absurd hcg h1, fun _ => ⟨rfl, rfl⟩⟩
    · rw [if_neg h2]
      intro g2 hg2
      have hgg : g = g2 := by simpa using hg2
      subst hgg
      exact ⟨fun hcg => absurd hcg h1, fun hcg => absurd hcg h2⟩

theorem processGc_establishes {fexp fsqrt : ℚ → ℚ} {tbl : DistTable}
    {a n x_bar S c : ℚ} {datas : List GetisCluster} {store : GcStore} {r : GcRef}
    {store2 : GcStore} (hval : criticalOf a = .ok c) (hin : inRange store r)
    (h : processGc fexp fsqrt tbl a n x_bar S datas store r = .ok store2) :
    giClassified c (refGet store2 r)
    ∧ (∀ r2, r2 ≠ r → refGet store2 r2 = refGet store r2)
    ∧ sameShape store2 store := by
  obtain ⟨g, c2, hc2, hst⟩ := processGc_ok_shape h
  have hcc : c2 = c := by
    rw [hval] at hc2
    injection hc2 with h3
    exact h3.symm
  subst hcc
  have hin1 : inRange (refSet store r { refGet store r with gi := some g }) r :=
    inRange_of_shape (refSet_shape store r _) hin
  refine ⟨?_, ?_, ?_⟩
  · rw [hst, refGet_refSet_self _ hin1,
      refGet_refSet_self _ hin]
    exact giClassified_applyThresholds (criticalOf_pos hval) (refGet store r) g
  · intro r2 hne
    rw [hst, refGet_refSet_ne _ hne, refGet_refSet_ne _ hne]
  · rw [hst]
    exact sameShape_trans (refSet_shape _ r _) (refSet_shape store r _)


theorem windowRefs_inRange {GC : List (List GetisCluster)} {w i : ℕ} {r : GcRef}
    (hr : r ∈ windowRefs GC w i) : inRange GC r := by
  unfold windowRefs at hr
  simp only [List.mem_flatMap, List.mem_map, List.mem_range] at hr
  obtain ⟨j, hj, k, hk, rfl⟩ := hr
  unfold inRange
  refine ⟨?_, hk⟩
  by_contra hge
  rw [List.getD_eq_getElem?_getD, List.getElem?_eq_none (by omega)] at hk
  simp at hk

theorem foldlM_ok_all {α σ : Type} {f : σ → α → Except String σ} :
    ∀ {l : List α} {s out : σ}, List.foldlM f s l = .ok out →
      ∀ x ∈ l, ∃ s2 out2, f s2 x = .ok out2 := by
  intro l
  induction l with
  | nil =>
    intro s out h x hx
    cases hx
  | cons y ys ih =>
    intro s out h x hx
    rw [foldlM_except_cons] at h
    obtain ⟨s1, hstep, hrest⟩ := except_bind_ok h
    rcases List.mem_cons.mp hx with rfl | hxs
    · exact ⟨s, s1, hstep⟩
    · exact ih hrest x hxs

theorem foldGc_shape {fexp fsqrt : ℚ → ℚ} {tbl : DistTable} {a n xb S : ℚ}
    {datas : List GetisCluster} :
    ∀ (refs : List GcRef) (store store2 : GcStore),
      List.foldlM (processGc fexp fsqrt tbl a n xb S datas) store refs = .ok store2 →
      sameShape store2 store := by
  intro refs
  induction refs with
  | nil =>
    intro store store2 h
    rw [foldlM_except_nil] at h
    rw [← Except.ok.inj h]
    exact sameShape_refl store
  | cons r rest ih =>
    intro store store2 h
    rw [foldlM_except_cons] at h
    obtain ⟨s1, hstep, hrest⟩ := except_bind_ok h
    obtain ⟨g, c, hc, hst⟩ := processGc_ok_shape hstep
    refine sameShape_trans (ih s1 store2 hrest) ?_
    rw [hst]
    exact sameShape_trans (refSet_shape _ r _) (refSet_shape store r _)

theorem foldGc_stability {fexp fsqrt : ℚ → ℚ} {tbl : DistTable} {a n xb S c : ℚ}
    {datas : List GetisCluster} (hval : criticalOf a = .ok c) :
    ∀ (refs : List GcRef) (store store2 : GcStore) (r0 : GcRef),
      List.foldlM (processGc fexp fsqrt tbl a n xb S datas) store refs = .ok store2 →
      (∀ r ∈ refs, inRange store r) → inRange store r0 →
      giClassified c (refGet store r0) → giClassified c (refGet store2 r0) := by
  intro refs
  induction refs with
  | nil =>
    intro store store2 r0 h _ _ hg
    rw [foldlM_except_nil] at h
    rw [← Except.ok.inj h]
    exact hg
  | cons r rest ih =>
    intro store store2 r0 h hall hin0 hg
    rw [foldlM_except_cons] at h
    obtain ⟨s1, hstep, hrest⟩ := except_bind_ok h
    have hinr : inRange store r := hall r (List.mem_cons_self r rest)
    have est := processGc_establishes hval hinr hstep
    have hall1 : ∀ r2 ∈ rest, inRange s1 r2 :=
      fun r2 hr2 => inRange_of_shape est.2.2 (hall r2 (List.mem_cons_of_mem r hr2))
    have hin01 : inRange s1 r0 := inRange_of_shape est.2.2 hin0
    by_cases hr0 : r0 = r
    · subst hr0
      exact ih s1 store2 r0 hrest hall1 hin01 est.1
    · exact ih s1 store2 r0 hrest hall1 hin01 (est.2.1 r0 hr0 ▸ hg)

theorem foldGc_establishes {fexp fsqrt : ℚ → ℚ} {tbl : DistTable} {a n xb S c : ℚ}
    {datas : List GetisCluster} (hval : criticalOf a = .ok c) :
    ∀ (refs : List GcRef) (store store2 : GcStore),
      List.foldlM (processGc fexp fsqrt tbl a n xb S datas) store refs = .ok store2 →
      (∀ r ∈ refs, inRange store r) →
      ∀ r0 ∈ refs, giClassified c (refGet store2 r0) := by
  intro refs
  induction refs with
  | nil =>
    intro store store2 h _ r0 hr0
    cases hr0
  | cons r rest ih =>
    intro store store2 h hall r0 hr0
    rw [foldlM_except_cons] at h
    obtain ⟨s1, hstep, hrest⟩ := except_bind_ok h
    have hinr : inRange store r := hall r (List.mem_cons_self r rest)
    have est := processGc_establishes hval hinr hstep
    have hall1 : ∀ r2 ∈ rest, inRange s1 r2 :=
      fun r2 hr2 => inRange_of_shape est.2.2 (hall r2 (List.mem_cons_of_mem r hr2))
    rcases List.mem_cons.mp hr0 with rfl | hr0s
    · exact foldGc_stability hval rest s1 store2 r0 hrest hall1
        (inRange_of_shape est.2.2 hinr) est.1
    · exact ih s1 store2 hrest hall1 r0 hr0s

theorem processWindow_cases {fexp fsqrt : ℚ → ℚ} {tbl : DistTable} {a : ℚ}
    {GC : List (List GetisCluster)} {w : ℕ} {store : GcStore} {i : ℕ}
    {store2 : GcStore}
    (h : processWindow fexp fsqrt tbl a GC w store i = .ok store2) :
    (windowRefs GC w i = [] ∧ store2 = store)
    ∨ ∃ n2 xb S2 datas,
        List.foldlM (processGc fexp fsqrt tbl a n2 xb S2 datas) store
          (windowRefs GC w i) = .ok store2 := by
  unfold processWindow at h
  by_cases hc : (windowRefs GC w i).length = 0
  · rw [if_pos hc] at h
    exact Or.inl ⟨List.length_eq_zero.mp hc, (Except.ok.inj h).symm⟩
  · rw [if_neg hc] at h
    exact Or.inr ⟨_, _, _, _, h⟩

theorem processWindow_error_of_invalid {fexp fsqrt : ℚ → ℚ} {tbl : DistTable}
    {a : ℚ} {GC : List (List GetisCluster)} {w i : ℕ}
    (hinv : (criticalOf a).toOption = none) (hne : windowRefs GC w i ≠ [])
    (store : GcStore) :
    ∃ e, processWindow fexp fsqrt tbl a GC w store i = .error e := by
  obtain ⟨r, rest, hrr⟩ := List.exists_cons_of_ne_nil hne
  obtain ⟨e, he⟩ := @processGc_error_of_invalid fexp fsqrt tbl a
    ((windowRefs GC w i).length : ℚ)
    ((((windowRefs GC w i).map (refGet store)).map (fun d => d.x)).sum /
      ((windowRefs GC w i).length : ℚ))
    (fsqrt ((((windowRefs GC w i).map (refGet store)).map (fun d => d.x ^ 2)).sum /
        ((windowRefs GC w i).length : ℚ) -
      ((((windowRefs GC w i).map (refGet store)).map (fun d => d.x)).sum /
        ((windowRefs GC w i).length : ℚ)) ^ 2))
    ((windowRefs GC w i).map (refGet store)) hinv store r
  refine ⟨e, ?_⟩
  unfold processWindow
  rw [if_neg (fun hc => hne (List.length_eq_zero.mp hc))]
  conv_lhs => rw [hrr]
  rw [foldlM_except_cons]
  rw [hrr] at he
  rw [he]
  rfl

theorem processWindow_establishes {fexp fsqrt : ℚ → ℚ} {tbl : DistTable}
    {a c : ℚ} {GC : List (List GetisCluster)} {w i : ℕ} {store store2 : GcStore}
    (hval : criticalOf a = .ok c) (hshape : sameShape store GC)
    (h : processWindow fexp fsqrt tbl a GC w store i = .ok store2) :
    (∀ r ∈ windowRefs GC w i, giClassified c (refGet store2 r))
    ∧ (∀ r0, inRange GC r0 → giClassified c (refGet store r0) →
        giClassified c (refGet store2 r0))
    ∧ sameShape store2 GC := by
  rcases processWindow_cases h with ⟨hemp, rfl⟩ | ⟨n2, xb, S2, datas, hfold⟩
  · exact ⟨fun r hr => absurd (hemp ▸ hr) (List.not_mem_nil r),
      fun r0 _ hg => hg, hshape⟩
  · have hall : ∀ r ∈ windowRefs GC w i, inRange store r :=
      fun r hr => inRange_of_shape hshape (windowRefs_inRange hr)
    exact ⟨foldGc_establishes hval _ _ _ hfold hall,
      fun r0 h0 hg => foldGc_stability hval _ _ _ r0 hfold hall
        (inRange_of_shape hshape h0) hg,
      sameShape_trans (foldGc_shape _ _ _ hfold) hshape⟩

theorem foldWin_establishes {fexp fsqrt : ℚ → ℚ} {tbl : DistTable} {a c : ℚ}
    {GC : List (List GetisCluster)} {w : ℕ} (hval : criticalOf a = .ok c) :
    ∀ (wins : List ℕ) (store final : GcStore),
      List.foldlM (processWindow fexp fsqrt tbl a GC w) store wins = .ok final →
      sameShape store GC →
      (∀ i ∈ wins, ∀ r ∈ windowRefs GC w i, giClassified c (refGet final r))
      ∧ (∀ r0, inRange GC r0 → giClassified c (refGet store r0) →
          giClassified c (refGet final r0)) := by
  intro wins
  induction wins with
  | nil =>
    intro store final h hs
    rw [foldlM_except_nil] at h
    rw [← Except.ok.inj h]
    exact ⟨fun i hi => absurd hi (List.not_mem_nil i), fun r0 _ hg => hg⟩
  | cons i rest ih =>
    intro store final h hs
    rw [foldlM_except_cons] at h
    obtain ⟨s1, hstep, hrest⟩ := except_bind_ok h
    have west := processWindow_establishes hval hs hstep
    have ihh := ih s1 final hrest west.2.2
    refine ⟨?_, ?_⟩
    · intro j hj r hr
      rcases List.mem_cons.mp hj with rfl | hjr
      · exact ihh.2 r (windowRefs_inRange hr) (west.1 r hr)
      · exact ihh.1 j hjr r hr
    · intro r0 h0 hg
      exact ihh.2 r0 h0 (west.2.1 r0 h0 hg)


/-- C1: the claim says the t field of every GetisCluster built by
STHS._create_getis_clusters from a per-partition Cluster equals that
cluster's partition start time.  The code passes cluster.c (the
cluster label) as the third positional argument of GetisCluster,
whose parameter t is documented as the timestamp: running the pipeline
on one trajectory living in partition [10, 20) with a capability that
labels every point 5 produces a per-partition Cluster with t = 10 and
label 5, and the GetisCluster built from it carries t = 5, not 10. -/
theorem C1_getisCluster_t_is_label :
    (((createGetisClusters (gClustering labelAll5 (createG 10 [trajC1]))).getD 1 []).getD 0 dummyGC).t = 5
    ∧ (((gClustering labelAll5 (createG 10 [trajC1])).getD 1 []).getD 0 dummyCluster).t = 10
    ∧ (((gClustering labelAll5 (createG 10 [trajC1])).getD 1 []).getD 0 dummyCluster).c = some 5
    ∧ ((createG 10 [trajC1]).getD 1 dummyTPartition).ts = 10
    ∧ (5 : ℤ) ≠ 10 := by decide


unseal Rat.add Rat.mul Rat.inv Rat.sub in
/-- C2 counterexample: the claim says each window's reported
Gi* values are window-local, so computing one window's statistics
never changes another window's report.  Concretely: with three
one-cluster partitions and w = 2, the cluster of partition 1 is shared
by windows 0 and 1; the full run reports gi = -2/21 for it in window
0's result, while the same window-0 computation run without partition 2
(whose presence only adds window 1) reports gi = 2/3.  Window 1's
computation overwrote window 0's report, so the instances are shared
mutable state, refuting the claim. -/
theorem C2_counterexample_shared_state :
    ((getisOrd 2 fexpLin fsqrtId fhavAbsX (1/100) [[gcA], [gcB], [gcC]]).toOption.map
      (fun V => (V.getD 0 []).map (fun g => g.gi))) = some [some (-2/3), some (-2/21)]
    ∧ ((getisOrd 2 fexpLin fsqrtId fhavAbsX (1/100) [[gcA], [gcB]]).toOption.map
      (fun V => (V.getD 0 []).map (fun g => g.gi))) = some [some (-2/3), some (2/3)]
    ∧ ((-2 : ℚ)/21) ≠ 2/3 := by
  decide

/-- C2 amended: the GetisCluster instances are built once per partition
and shared by every window containing that partition; each window's
processing overwrites the shared objects in place, and the returned
per-window lists all read the final state, so the values reported for a
shared cluster are identical in every window containing it (the last
computed ones), rather than independent per window. -/
theorem C2_amended_windows_alias_shared_instances
    (w : ℕ) (fexp fsqrt : ℚ → ℚ) (fhav : Point → Point → ℚ) (a : ℚ)
    (GC V : List (List GetisCluster)) (h : getisOrd w fexp fsqrt fhav a GC = .ok V)
    (i ii k kk : ℕ) (hi : i < GC.length + 1 - w) (hii : ii < GC.length + 1 - w)
    (hk : k < (windowRefs GC w i).length) (hkk : kk < (windowRefs GC w ii).length)
    (hr : (windowRefs GC w i).getD k (0, 0) = (windowRefs GC w ii).getD kk (0, 0)) :
    (V.getD i []).getD k dummyGC = (V.getD ii []).getD kk dummyGC := by
  obtain ⟨final, hf, hV⟩ := getisOrd_ok h
  subst hV
  rw [getD_map_range _ hi, getD_map_range _ hii,
    getD_map_of_lt _ _ hk (0, 0), getD_map_of_lt _ _ hkk (0, 0), hr]

unseal Rat.add Rat.mul Rat.inv Rat.sub in
/-- Witness for C2 amended: in the three-partition run, the shared
cluster's entry at position 1 of window 0's report equals the entry at
position 0 of window 1's report. -/
theorem C2_amended_witness :
    ((((getisOrd 2 fexpLin fsqrtId fhavAbsX (1/100) [[gcA], [gcB], [gcC]]).toOption.getD
        []).getD 0 []).getD 1 dummyGC)
      = ((((getisOrd 2 fexpLin fsqrtId fhavAbsX (1/100) [[gcA], [gcB], [gcC]]).toOption.getD
        []).getD 1 []).getD 0 dummyGC) :=
  C2_amended_windows_alias_shared_instances 2 fexpLin fsqrtId fhavAbsX (1/100)
    [[gcA], [gcB], [gcC]] _ (by decide) 0 1 1 0 (by decide) (by decide)
    (by decide) (by decide) (by decide)


unseal Rat.add Rat.mul Rat.inv Rat.sub in
/-- C3: the claim says degenerate windows (single cluster, n - 1 = 0, or
all features equal, S = 0) must not raise a numeric fault.  The code
divides by n - 1 and by S * sqrt(...) with no guard: a one-cluster
window and a window of two clusters with equal feature values both
abort with ZeroDivisionError (under fsqrtId, sqrt 0 = 0 exactly as
math.sqrt). -/
theorem C3_degenerate_window_raises :
    getisOrd 1 fexpLin fsqrtId fhavAbsX (1/100) [[gcA]] = .error "ZeroDivisionError"
    ∧ getisOrd 2 fexpLin fsqrtId fhavAbsX (1/100) [[gcA], [gcD]] = .error "ZeroDivisionError" := by
  decide


unseal Rat.add Rat.mul Rat.inv Rat.sub in
/-- C4 counterexample: the claim as stated fails twice on the code.
First, a run whose windows hold no clusters never reaches the critical
value selection: with invalid a = 0.2 the computation returns normally
instead of failing.  Second, because overlapping windows share the
GetisCluster instances, a cluster can end with a final Gi* strictly
between -1.65 and 1.65 while still carrying significant = true and
spot = Hot from an earlier window, instead of being left
significant = false, spot = None. -/
theorem C4_counterexample_silent_and_stale :
    getisOrd 1 fexpLin fsqrtId fhavAbsX (2/10) [[]] = .ok [[]]
    ∧ ((getisOrd 2 fexpLin fsqrtId fhavAbsX (10/100) [[hA], [hB], [hC]]).toOption.map
      (fun V => (V.getD 0 []).map (fun g => (g.gi, g.significant, g.spot)))) =
      some [(some (-2), true, some Spot.Cold), (some (-1/5), true, some Spot.Hot)]
    ∧ ¬ ((-1/5 : ℚ) ≤ -(165/100)) ∧ ¬ ((165/100 : ℚ) ≤ -1/5) := by
  decide

unseal Rat.add Rat.mul Rat.inv Rat.sub in
/-- C5 counterexample: the claim says the partition ranges exactly tile
[0, max end time).  For a single trajectory ending at t = 15 with
interval 10, ST._create_G emits partitions [0, 10) and [10, 20): the
instant 16 is covered although it is not below the maximal end time 15,
so the union overshoots [0, 15). -/
theorem C5_counterexample_overshoot :
    ¬ coversExactlySpec (createG 10 [trajC5]) (maxEndT [trajC5]) := by
  intro h
  have h16 := (h 16).mp
    ⟨(createG 10 [trajC5]).getD 1 dummyTPartition, by decide, by decide, by decide⟩
  exact absurd h16.2 (by decide)


/-- C4 amended: an invalid significance level a is reported by raising
an error as soon as some window actually holds a cluster (a run all of
whose windows are empty returns normally, never reaching the critical
value selection); with a valid a and its critical value c, every
cluster of every reported window whose (final) Gi* value g satisfies
g at most -c carries significant = true and spot = Cold, and g at least
c carries significant = true and spot = Hot; a cluster whose final g is
strictly between the thresholds keeps the significant/spot values left
by the previous window that contained it (false/None if none did). -/
theorem C4_amended_validation_and_classification (w : ℕ) (fexp fsqrt : ℚ → ℚ)
    (fhav : Point → Point → ℚ) (a : ℚ) :
    ((criticalOf a).toOption = none →
      ∀ GC : List (List GetisCluster),
        (∃ i, i < GC.length + 1 - w ∧ windowRefs GC w i ≠ []) →
        ∃ e, getisOrd w fexp fsqrt fhav a GC = .error e)
    ∧ (∀ c, criticalOf a = .ok c →
        ∀ GC V, getisOrd w fexp fsqrt fhav a GC = .ok V →
          ∀ L ∈ V, ∀ gc ∈ L, giClassified c gc) := by
  constructor
  · rintro hinv GC ⟨i, hi, hne⟩
    unfold getisOrd
    cases hf : List.foldlM
        (processWindow fexp fsqrt (calculateDistance w fhav GC) a GC w) GC
        (List.range (GC.length + 1 - w)) with
    | error e =>
      refine ⟨e, ?_⟩
      simp only [hf, Bind.bind, Except.bind]
    | ok final =>
      exfalso
      obtain ⟨s2, out2, hstep⟩ := foldlM_ok_all hf i (List.mem_range.mpr hi)
      obtain ⟨e, he⟩ := processWindow_error_of_invalid hinv hne s2
      rw [he] at hstep
      cases hstep
  · intro c hval GC V hok L hL gc hgc
    obtain ⟨final, hf, hV⟩ := getisOrd_ok hok
    subst hV
    obtain ⟨i, hir, rfl⟩ := List.mem_map.mp hL
    obtain ⟨r, hr, rfl⟩ := List.mem_map.mp hgc
    exact (foldWin_establishes hval (List.range (GC.length + 1 - w)) GC final hf
      (sameShape_refl GC)).1 i hir r hr

unseal Rat.add Rat.mul Rat.inv Rat.sub in
/-- Witness for C4 amended: with invalid a = 0.2 a run with a non-empty
window errors, and in the valid a = 0.10 three-partition run every
reported cluster respects the threshold classification for its final
Gi* value. -/
theorem C4_amended_witness :
    (∃ e, getisOrd 1 fexpLin fsqrtId fhavAbsX (2/10) [[hA]] = .error e)
    ∧ (∀ L ∈ (getisOrd 2 fexpLin fsqrtId fhavAbsX (10/100)
          [[hA], [hB], [hC]]).toOption.getD [],
        ∀ gc ∈ L, giClassified (165/100) gc) :=
  ⟨(C4_amended_validation_and_classification 1 fexpLin fsqrtId fhavAbsX (2/10)).1
    (by decide) [[hA]] ⟨0, by decide, by decide⟩,
   (C4_amended_validation_and_classification 2 fexpLin fsqrtId fhavAbsX (10/100)).2
    (165/100) (by decide) [[hA], [hB], [hC]] _ (by decide)⟩


/-- C9: for n partitions and window size w, STC._v_clustering produces
exactly n - w + 1 pairs of window results and STHS._calculate_getis_ord
exactly n - w + 1 window results, zero when w exceeds n. -/
theorem C9_window_counts (vmodel : List (ℚ × ℚ) → List ℤ) (w : ℕ)
    (K : List (List Cluster)) (fexp fsqrt : ℚ → ℚ) (fhav : Point → Point → ℚ)
    (a : ℚ) (GC V : List (List GetisCluster)) :
    ((vClustering vmodel w K).1.length = (if w ≤ K.length then K.length - w + 1 else 0)
    ∧ (vClustering vmodel w K).2.length = (if w ≤ K.length then K.length - w + 1 else 0))
    ∧ (getisOrd w fexp fsqrt fhav a GC = .ok V →
        V.length = (if w ≤ GC.length then GC.length - w + 1 else 0)) := by
  refine ⟨⟨?_, ?_⟩, ?_⟩
  · simp only [vClustering, List.length_map, List.length_range]
    split <;> omega
  · simp only [vClustering, List.length_map, List.length_range]
    split <;> omega
  · intro h
    obtain ⟨final, hf, hV⟩ := getisOrd_ok h
    subst hV
    simp only [List.length_map, List.length_range]
    split <;> omega

unseal Rat.add Rat.mul Rat.inv Rat.sub in
/-- Witness for C9: a concrete 3-partition input with w = 2 yields 2
window results on both paths. -/
theorem C9_witness :
    ((vClustering vmodelAlt 2 KEx).1.length = (if 2 ≤ KEx.length then KEx.length - 2 + 1 else 0)
    ∧ (vClustering vmodelAlt 2 KEx).2.length = (if 2 ≤ KEx.length then KEx.length - 2 + 1 else 0))
    ∧ ((getisOrd 2 fexpLin fsqrtId fhavAbsX (1/100) [[gcA], [gcB], [gcC]]).toOption.getD []).length =
        (if 2 ≤ ([[gcA], [gcB], [gcC]] : List (List GetisCluster)).length then
          ([[gcA], [gcB], [gcC]] : List (List GetisCluster)).length - 2 + 1 else 0) :=
  ⟨(C9_window_counts vmodelAlt 2 KEx fexpLin fsqrtId fhavAbsX (1/100)
      [[gcA], [gcB], [gcC]] ((getisOrd 2 fexpLin fsqrtId fhavAbsX (1/100)
        [[gcA], [gcB], [gcC]]).toOption.getD [])).1,
   (C9_window_counts vmodelAlt 2 KEx fexpLin fsqrtId fhavAbsX (1/100)
      [[gcA], [gcB], [gcC]] ((getisOrd 2 fexpLin fsqrtId fhavAbsX (1/100)
        [[gcA], [gcB], [gcC]]).toOption.getD [])).2 (by decide)⟩

/-- C6: every emitted partition [t1, t2) of ST._create_G holds exactly
the midpoints of the trajectories passing the inclusive overlap test
NOT (tps.t > t2 OR tpe.t < t1), and every point it holds is stamped
with the partition start time t1 = j * interval, not the trajectory's
own timestamp. -/
theorem C6_partition_membership_and_timestamp (interval : ℤ)
    (trajs : List Trajectory) (j : ℕ) (hj : j < (createG interval trajs).length) :
    ((createG interval trajs).getD j dummyTPartition).ts = (j : ℤ) * interval
    ∧ ((createG interval trajs).getD j dummyTPartition).te = (j : ℤ) * interval + interval
    ∧ ((createG interval trajs).getD j dummyTPartition).tpoints
      = (trajs.filter (fun tr =>
          decide (¬ (tr.tps.t > (j : ℤ) * interval + interval ∨ tr.tpe.t < (j : ℤ) * interval)))).map
        (fun tr => { x := tr.m.x, y := tr.m.y, t := (j : ℤ) * interval })
    ∧ ∀ pt ∈ ((createG interval trajs).getD j dummyTPartition).tpoints,
        pt.t = (j : ℤ) * interval := by
  have hj2 : j < numSlices (maxEndT trajs) interval := by
    simpa [createG, List.length_map, List.length_range] using hj
  have hg : (createG interval trajs).getD j dummyTPartition =
      { ts := (j : ℤ) * interval, te := (j : ℤ) * interval + interval,
        tpoints := (trajs.filter (fun tr =>
            decide (¬ (tr.tps.t > (j : ℤ) * interval + interval ∨ tr.tpe.t < (j : ℤ) * interval)))).map
          (fun tr => { x := tr.m.x, y := tr.m.y, t := (j : ℤ) * interval }) } := by
    unfold createG
    rw [getD_map_range _ hj2]
  refine ⟨by rw [hg], by rw [hg], by rw [hg], ?_⟩
  rw [hg]
  intro pt hpt
  simp only [List.mem_map] at hpt
  obtain ⟨tr, _, rfl⟩ := hpt
  rfl

/-- Witness for C6: partition 1 of a concrete run has bounds [10, 20),
holds exactly the spanning trajectory's midpoint, stamped t = 10. -/
theorem C6_witness :
    ((createG 10 [trajC1]).getD 1 dummyTPartition).ts = ((1 : ℕ) : ℤ) * 10
    ∧ ((createG 10 [trajC1]).getD 1 dummyTPartition).te = ((1 : ℕ) : ℤ) * 10 + 10
    ∧ ((createG 10 [trajC1]).getD 1 dummyTPartition).tpoints
      = ([trajC1].filter (fun tr =>
          decide (¬ (tr.tps.t > ((1 : ℕ) : ℤ) * 10 + 10 ∨ tr.tpe.t < ((1 : ℕ) : ℤ) * 10)))).map
        (fun tr => { x := tr.m.x, y := tr.m.y, t := ((1 : ℕ) : ℤ) * 10 })
    ∧ ∀ pt ∈ ((createG 10 [trajC1]).getD 1 dummyTPartition).tpoints,
        pt.t = ((1 : ℕ) : ℤ) * 10 :=
  C6_partition_membership_and_timestamp 10 [trajC1] 1 (by decide)


/-- C7: per STC window i, an empty flattened union Vj yields empty
R[i] and N[i]; otherwise the capability is re-run on the centroids of
Vj and Vj is partitioned by the new labels into R[i] (label distinct
from -1) and N[i] (label -1), each cluster re-wrapped with its new
label while keeping its member points and its original timestamp. -/
theorem C7_window_aggregation (vmodel : List (ℚ × ℚ) → List ℤ) (w i : ℕ)
    (K : List (List Cluster)) (hi : i < K.length + 1 - w) :
    (windowUnion K w i = [] →
      (vClustering vmodel w K).1.getD i [] = [] ∧ (vClustering vmodel w K).2.getD i [] = [])
    ∧ (windowUnion K w i ≠ [] →
      (vClustering vmodel w K).1.getD i [] =
        ((windowUnion K w i).enum.filter (fun p =>
          decide ((vmodel ((windowUnion K w i).map (fun c => (c.m.x, c.m.y)))).getD p.1 (-1) ≠ -1))).map
          (fun p => mkCluster (p.1 : ℤ) p.2.cpoints p.2.t
            (some ((vmodel ((windowUnion K w i).map (fun c => (c.m.x, c.m.y)))).getD p.1 (-1))))
      ∧ (vClustering vmodel w K).2.getD i [] =
        ((windowUnion K w i).enum.filter (fun p =>
          decide ((vmodel ((windowUnion K w i).map (fun c => (c.m.x, c.m.y)))).getD p.1 (-1) = -1))).map
          (fun p => mkCluster (p.1 : ℤ) p.2.cpoints p.2.t
            (some ((vmodel ((windowUnion K w i).map (fun c => (c.m.x, c.m.y)))).getD p.1 (-1)))))
    ∧ ∀ cl ∈ (vClustering vmodel w K).1.getD i [] ++ (vClustering vmodel w K).2.getD i [],
        ∃ k, k < (windowUnion K w i).length
          ∧ cl.cpoints = ((windowUnion K w i).getD k dummyCluster).cpoints
          ∧ cl.t = ((windowUnion K w i).getD k dummyCluster).t := by
  refine ⟨?_, ?_, ?_⟩
  · intro hVj
    rw [vClustering_getD_1 vmodel w i K hi, vClustering_getD_2 vmodel w i K hi]
    constructor <;> simp [vWindow, hVj]
  · intro hVj
    have hlen : ¬ ((windowUnion K w i).map (fun c => (c.m.x, c.m.y))).length = 0 := by
      simpa using fun h => hVj (List.eq_nil_of_length_eq_zero (by simpa using h))
    rw [vClustering_getD_1 vmodel w i K hi, vClustering_getD_2 vmodel w i K hi]
    constructor <;> simp [vWindow, hVj, hlen]
  · intro cl hcl
    rcases List.mem_append.mp hcl with h | h
    · rw [vClustering_getD_1 vmodel w i K hi] at h
      obtain ⟨k, hk, _, h1, h2⟩ := vWindow_mem vmodel w i K cl (Or.inl h)
      exact ⟨k, hk, h1, h2⟩
    · rw [vClustering_getD_2 vmodel w i K hi] at h
      obtain ⟨k, hk, _, h1, h2⟩ := vWindow_mem vmodel w i K cl (Or.inr h)
      exact ⟨k, hk, h1, h2⟩

/-- Witness for C7 at a concrete non-empty window. -/
theorem C7_witness :
    (windowUnion KEx 2 0 = [] →
      (vClustering vmodelAlt 2 KEx).1.getD 0 [] = [] ∧ (vClustering vmodelAlt 2 KEx).2.getD 0 [] = [])
    ∧ (windowUnion KEx 2 0 ≠ [] →
      (vClustering vmodelAlt 2 KEx).1.getD 0 [] =
        ((windowUnion KEx 2 0).enum.filter (fun p =>
          decide ((vmodelAlt ((windowUnion KEx 2 0).map (fun c => (c.m.x, c.m.y)))).getD p.1 (-1) ≠ -1))).map
          (fun p => mkCluster (p.1 : ℤ) p.2.cpoints p.2.t
            (some ((vmodelAlt ((windowUnion KEx 2 0).map (fun c => (c.m.x, c.m.y)))).getD p.1 (-1))))
      ∧ (vClustering vmodelAlt 2 KEx).2.getD 0 [] =
        ((windowUnion KEx 2 0).enum.filter (fun p =>
          decide ((vmodelAlt ((windowUnion KEx 2 0).map (fun c => (c.m.x, c.m.y)))).getD p.1 (-1) = -1))).map
          (fun p => mkCluster (p.1 : ℤ) p.2.cpoints p.2.t
            (some ((vmodelAlt ((windowUnion KEx 2 0).map (fun c => (c.m.x, c.m.y)))).getD p.1 (-1)))))
    ∧ ∀ cl ∈ (vClustering vmodelAlt 2 KEx).1.getD 0 [] ++ (vClustering vmodelAlt 2 KEx).2.getD 0 [],
        ∃ k, k < (windowUnion KEx 2 0).length
          ∧ cl.cpoints = ((windowUnion KEx 2 0).getD k dummyCluster).cpoints
          ∧ cl.t = ((windowUnion KEx 2 0).getD k dummyCluster).t :=
  C7_window_aggregation vmodelAlt 2 0 KEx (by decide)

/-- C10: every re-wrapped cluster of an STC window result carries as id
its 0-based position in the flattened union Vj of that window (so ids
restart from 0 in every window and the same source cluster gets
different ids in different windows), not the globally unique id the
per-partition pass assigned. -/
theorem C10_rewrapped_ids_are_positions (vmodel : List (ℚ × ℚ) → List ℤ)
    (w i : ℕ) (K : List (List Cluster)) (hi : i < K.length + 1 - w) :
    ∀ cl ∈ (vClustering vmodel w K).1.getD i [] ++ (vClustering vmodel w K).2.getD i [],
      ∃ k, k < (windowUnion K w i).length ∧ cl.id = (k : ℤ)
        ∧ cl.cpoints = ((windowUnion K w i).getD k dummyCluster).cpoints
        ∧ cl.t = ((windowUnion K w i).getD k dummyCluster).t := by
  intro cl hcl
  rcases List.mem_append.mp hcl with h | h
  · rw [vClustering_getD_1 vmodel w i K hi] at h
    exact vWindow_mem vmodel w i K cl (Or.inl h)
  · rw [vClustering_getD_2 vmodel w i K hi] at h
    exact vWindow_mem vmodel w i K cl (Or.inr h)

unseal Rat.add Rat.mul Rat.inv Rat.sub in
/-- Witness for C10 at a concrete window and a concrete re-wrapped
cluster: the noise cluster of window 0 carries its position in Vj
as id. -/
theorem C10_witness :
    ∃ k, k < (windowUnion KEx 2 0).length
      ∧ (((vClustering vmodelAlt 2 KEx).2.getD 0 []).getD 0 dummyCluster).id = (k : ℤ)
      ∧ (((vClustering vmodelAlt 2 KEx).2.getD 0 []).getD 0 dummyCluster).cpoints
          = ((windowUnion KEx 2 0).getD k dummyCluster).cpoints
      ∧ (((vClustering vmodelAlt 2 KEx).2.getD 0 []).getD 0 dummyCluster).t
          = ((windowUnion KEx 2 0).getD k dummyCluster).t :=
  C10_rewrapped_ids_are_positions vmodelAlt 2 0 KEx (by decide)
    (((vClustering vmodelAlt 2 KEx).2.getD 0 []).getD 0 dummyCluster) (by decide)

end SpatioTemporal
